import Mathlib

/-!
Verification development for the Data Hub core (resource tree and data
sample store).  The definitions below are a shallow embedding of
`src/components/dataHub/resTree.c` and `src/components/dataHub/dataSample.c`:

* A resource-tree entry (`Entry_t`) becomes the rose tree `Entry`; the C
  union `u` (resource pointer vs. namespace flag word) is modelled by the
  pair of fields `res : Option Res` (`none` for a pure namespace) and
  `flags : Flags` (only meaningful when the entry type is a namespace,
  exactly as in the C union).  Reference counts (`le_mem`) are carried
  explicitly in the `rc` field; `le_mem_Release` with its destructor
  cascade is the function `releaseIn`.
* Pointers to entries become index chains (`List Nat`) naming the child
  position at each level; pointer equality of entry references is equality
  of chains.
* Allocation (`hub_MemAlloc`, `res_Create*Placeholder`, sample pools) is
  driven by an explicit oracle `List Bool`, consumed one element per
  allocation attempt (an exhausted oracle means success).
* `LE_FATAL` / failed `LE_ASSERT` become a dedicated `fatal` outcome.
* External collaborators that are not part of this repository are modelled
  from the spec where their behaviour matters and passed as parameters
  where it does not (see the individual doc comments).
-/

/-- Entry types, mirroring `admin_EntryType_t`
(`NONE, NAMESPACE, PLACEHOLDER, INPUT, OUTPUT, OBSERVATION`). -/
inductive EntryType where
  | noneType
  | nspace
  | placeholder
  | input
  | output
  | observation
deriving DecidableEq, Repr

/-- The namespace flag word (`RES_FLAG_NEW / RELEVANT / CLEAR_NEW / DELETED`)
as a record of booleans. -/
structure Flags where
  isNew : Bool
  relevant : Bool
  clearNew : Bool
  deleted : Bool
deriving DecidableEq, Repr

/-- `u.flags = RES_FLAG_NEW`, the flag word written by `AddChild` for a
freshly created or resurrected entry. -/
def newFlags : Flags := ⟨true, false, false, false⟩

/-- Modelled from the spec: the external `res_*` resource engine objects.
Only the distinctions the tree layer observes are kept: the flavour of a
placeholder (`res_CreateIoPlaceholder` vs `res_CreateObsPlaceholder`) and
the converted forms. -/
inductive Res where
  | ioPlaceholder
  | obsPlaceholder
  | inputRes
  | outputRes
  | obsRes
deriving DecidableEq, Repr

/-- A resource tree entry (`Entry_t` in resTree.c): name, type tag, flag
word, attached resource, reference count, ordered child list
(`le_dls_Queue` appends at the tail, so list order is insertion order). -/
inductive Entry where
  | mk (name : String) (etype : EntryType) (flags : Flags) (res : Option Res)
       (rc : Nat) (children : List Entry)

def Entry.name : Entry → String
  | .mk n _ _ _ _ _ => n

def Entry.etype : Entry → EntryType
  | .mk _ t _ _ _ _ => t

def Entry.flags : Entry → Flags
  | .mk _ _ f _ _ _ => f

def Entry.res : Entry → Option Res
  | .mk _ _ _ r _ _ => r

def Entry.rc : Entry → Nat
  | .mk _ _ _ _ c _ => c

def Entry.children : Entry → List Entry
  | .mk _ _ _ _ _ ch => ch

/-- `resTree_IsDeleted`: a namespace entry is deleted when its DELETED flag
is set; an entry with a resource attached is never considered deleted. -/
def resTree_IsDeleted (e : Entry) : Bool :=
  if e.etype = EntryType.nspace then e.flags.deleted else false

/-- One allocation attempt against the oracle: the head of the list decides
success; an exhausted oracle allocates successfully. -/
def allocStep : List Bool → Bool × List Bool
  | [] => (true, [])
  | b :: rest => (b, rest)

/-- `resTree_FindChildEx` over the child list, also returning the child's
position: the first child whose name matches and that is either not
deleted or included because `withZombies` is set.  The accumulator `k` is
the index of the head of `l` in the full child list. -/
def findChildWithIdx : List Entry → String → Bool → Nat → Option (Nat × Entry)
  | [], _, _, _ => none
  | c :: rest, nm, wz, k =>
    if (wz || !resTree_IsDeleted c) = true ∧ c.name = nm then some (k, c)
    else findChildWithIdx rest nm wz (k + 1)

/-- Dereference an entry reference: follow a chain of child indices. -/
def entryAt (e : Entry) : List Nat → Option Entry
  | [] => some e
  | i :: rest =>
    match e.children.get? i with
    | none => none
    | some c => entryAt c rest

/-- Replace the entry at the given chain (used to graft a modified subtree
back into the tree). -/
def updateAt (e : Entry) : List Nat → Entry → Entry
  | [], e2 => e2
  | i :: rest, e2 =>
    match e.children.get? i with
    | none => e
    | some c => Entry.mk e.name e.etype e.flags e.res e.rc
        (e.children.set i (updateAt c rest e2))

/-- `le_mem_Release` on the entry at the given chain, with the
`EntryDestructor` cascade: when a count reaches zero the node is removed
from its parent's child list and the reference it held on the parent is
released in turn.  `none` means the release cascaded all the way up and
destroyed `e` itself (the caller then owes a release of `e`'s parent).
The destructor's `LE_ASSERT(le_dls_IsEmpty(childList))` holds on every
path exercised here (nodes destroyed by rollback have no children), so it
is not modelled separately. -/
def releaseIn (e : Entry) : List Nat → Option Entry
  | [] =>
    if e.rc ≤ 1 then none
    else some (Entry.mk e.name e.etype e.flags e.res (e.rc - 1) e.children)
  | i :: rest =>
    match e.children.get? i with
    | none => some e
    | some c =>
      match releaseIn c rest with
      | some c2 => some (Entry.mk e.name e.etype e.flags e.res e.rc
          (e.children.set i c2))
      | none =>
        if e.rc ≤ 1 then none
        else some (Entry.mk e.name e.etype e.flags e.res (e.rc - 1)
            (e.children.eraseIdx i))

/-- Byte size of a character when encoded in UTF-8 (the byte counting done
by the platform's `le_utf8` helpers). -/
def charBytes (c : Char) : Nat :=
  if c.val ≤ 0x7F then 1
  else if c.val ≤ 0x7FF then 2
  else if c.val ≤ 0xFFFF then 3
  else 4

/-- UTF-8 byte length of a character list. -/
def charsBytes : List Char → Nat
  | [] => 0
  | c :: rest => charBytes c + charsBytes rest

/-- Longest prefix of `src` whose UTF-8 encoding fits in `budget` bytes
(`le_utf8_Copy` truncates at a character boundary on overflow). -/
def truncChars : List Char → Nat → List Char
  | [], _ => []
  | c :: rest, budget =>
    if charBytes c ≤ budget then c :: truncChars rest (budget - charBytes c)
    else []

/-- Modelled from the spec (platform external interface): `le_utf8_Copy`
into a buffer of `size` bytes.  Returns (success, bytes written as
characters, number of bytes written excluding the terminator).  Success
iff the whole source plus a null terminator fits. -/
def leUtf8Copy (src : List Char) (size : Nat) : Bool × List Char × Nat :=
  if charsBytes src + 1 ≤ size then (true, src, charsBytes src)
  else (false, truncChars src (size - 1), charsBytes (truncChars src (size - 1)))

/-- Split a character list at every `'/'` (each separator starts a new
part), mirroring the per-segment scan of the C path walk: `strchrnul`
finds the next `'/'` and the loop consumes exactly one separator before
each subsequent segment. -/
def splitSlash : List Char → List (List Char)
  | [] => [[]]
  | c :: rest =>
    if c = '/' then [] :: splitSlash rest
    else
      match splitSlash rest with
      | [] => [[c]]
      | seg :: segs => (c :: seg) :: segs

/-- Inverse of `splitSlash`: interleave the parts with `'/'` separators. -/
def joinParts : List (List Char) → List Char
  | [] => []
  | [p] => p
  | p :: q :: rest => p ++ '/' :: joinParts (q :: rest)

/-- Path parsing as performed by the walk loops of `FindEntry` /
`CreateEntry` combined with the up-front malformedness check.  A single
leading `'/'` is skipped; every segment must be non-empty
(`LE_ASSERT(nameLen != 0)`).  `hub_IsResourcePathMalformed` is not in
`src/`; modelled from the spec (section 4.2): empty components are
rejected, a path is optionally absolute; the per-component length limit is
not modelled (no claim depends on it).  Returns the segment names, or
`none` for a malformed path. -/
def parseBody (body : List Char) : Option (List String) :=
  if (splitSlash body).any (fun p => p.isEmpty) then none
  else some ((splitSlash body).map (fun p => String.mk p))

/-- See `parseBody`: a single leading `'/'` is skipped, then the slash-split
segments must all be non-empty. -/
def parseSegs (cs : List Char) : Option (List String) :=
  match cs with
  | [] => some []
  | c :: rest => parseBody (if c = '/' then rest else c :: rest)

/-- Render a segment list as an absolute path: a `'/'` before every
segment. -/
def renderAbs : List String → List Char
  | [] => []
  | s :: rest => '/' :: (s.data ++ renderAbs rest)

/-- Render a reversed segment list (deepest segment first) as an absolute
path; `renderRev (l.reverse) = renderAbs l`. -/
def renderRev : List String → List Char
  | [] => []
  | n :: rest => renderRev rest ++ '/' :: n.data

/-- Sum, over the segments, of one separator byte plus the segment's
UTF-8 byte length (the byte count of the absolute rendering). -/
def bytesSegs : List String → Nat
  | [] => 0
  | s :: rest => 1 + charsBytes s.data + bytesSegs rest

/-- Result of the recursive `resTree_GetPath`: `ok` carries the buffer
contents and the byte count returned (`LE_OK`, i.e. 0, for the
entry-equals-base corner case); `fatal` models the failed
`LE_ASSERT(stringBuffSize > 0)`. -/
inductive PathOut where
  | overflow
  | notFound
  | fatal
  | ok (buf : List Char) (bytes : Nat)
deriving DecidableEq, Repr

/-- The unwinding step of the `resTree_GetPath` recursion: once the path of
the parent has been written (`len` bytes), write a `'/'` separator and the
entry's own name after it, propagating errors. -/
def appendSeg (size : Nat) (prev : PathOut) (n : String) : PathOut :=
  match prev with
  | PathOut.ok s len =>
    if (leUtf8Copy (['/']) (size - len)).1 then
      if (leUtf8Copy n.data (size - len - 1)).1 then
        PathOut.ok (s ++ '/' :: (leUtf8Copy n.data (size - len - 1)).2.1)
          (len + 1 + (leUtf8Copy n.data (size - len - 1)).2.2)
      else PathOut.overflow
    else PathOut.overflow
  | r => r

/-- `resTree_GetPath` on the chain of entry names from the base to the
entry, taken in reverse (deepest first), matching the C recursion on
parent pointers: the singleton chain is the parent-is-base case (with a
leading `'/'` exactly when the base is the root), longer chains recurse on
the parent and then append a separator and the entry's own name. -/
def getPathRev (size : Nat) (isRoot : Bool) : List String → PathOut
  | [] => if size = 0 then PathOut.fatal else PathOut.ok [] 0
  | [n] =>
    if isRoot then
      if (leUtf8Copy (['/']) size).1 then
        if (leUtf8Copy n.data (size - 1)).1 then
          PathOut.ok ('/' :: (leUtf8Copy n.data (size - 1)).2.1)
            (1 + (leUtf8Copy n.data (size - 1)).2.2)
        else PathOut.overflow
      else PathOut.overflow
    else
      if (leUtf8Copy n.data size).1 then
        PathOut.ok (leUtf8Copy n.data size).2.1 (leUtf8Copy n.data size).2.2
      else PathOut.overflow
  | n :: m :: rest =>
    appendSeg size (getPathRev size isRoot (m :: rest)) n

/-- Names along an index chain (the entry names passed to the
`le_utf8_Copy` calls of `resTree_GetPath`). -/
def namesAt (e : Entry) : List Nat → Option (List String)
  | [] => some []
  | i :: rest =>
    match e.children.get? i with
    | none => none
    | some c =>
      match namesAt c rest with
      | none => none
      | some l => some (c.name :: l)

/-- `resTree_GetPath(buf, size, base, entry)` where `base` is the entry at
`baseIdx` (from the root) and the entry is `relIdx` below the base.  In
this chain model the entry is in the base's subtree by construction, so
the `LE_NOT_FOUND` branch of the C code is never taken; `notFound` remains
in `PathOut` to express that fact.  `baseIdx = []` is the
`baseNamespace == RootPtr` comparison. -/
def resTree_GetPath (size : Nat) (t : Entry) (baseIdx relIdx : List Nat) : PathOut :=
  match entryAt t baseIdx with
  | none => PathOut.fatal
  | some base =>
    match namesAt base relIdx with
    | none => PathOut.fatal
    | some names => getPathRev size baseIdx.isEmpty names.reverse

/-- Outcome of the `CreateEntry` walk: on success the chain of child
indices to the deepest entry; `noMemW` after the rollback of the cleanup
label; `fatalW` for `LE_FATAL` / failed `LE_ASSERT`. -/
inductive WalkOut where
  | okW (chain : List Nat)
  | noMemW
  | fatalW
deriving DecidableEq, Repr

/-- The run of fresh namespace nodes `AddChild` builds for the remaining
missing segments, allocating one node per segment in walk order.  Each
fresh node is born with flag word NEW, reference count 1, plus one more
count on an interior node for the reference its chain child takes on it.
Returns `none` when any allocation fails: the cleanup loop then releases
the partial chain deepest-first, each destructor dropping the reference on
its parent, so nothing of the partial chain survives. -/
def buildChain : List String → List Bool → Option Entry × List Bool
  | [], a => (none, a)
  | [s], a =>
    let (ok1, a1) := allocStep a
    if ok1 then (some (Entry.mk s EntryType.nspace newFlags none 1 []), a1)
    else (none, a1)
  | s :: s2 :: rest, a =>
    let (ok1, a1) := allocStep a
    if ok1 then
      match buildChain (s2 :: rest) a1 with
      | (some child, a2) =>
        (some (Entry.mk s EntryType.nspace newFlags none 2 [child]), a2)
      | (none, a2) => (none, a2)
    else (none, a1)

/-- `CreateEntry`: walk the segments from `e`, creating missing entries.
A child found at the final segment — live or zombie — trips
`LE_FATAL_IF(childPtr != NULL && *terminatorPtr == '\0')`.  A zombie found
at an intermediate segment is resurrected in place by
`AddChild(parent, name, childPtr)`: its flag word is reset to NEW (the
`LE_ASSERT`s require it to be a childless namespace); no reference counts
change.  A missing child starts a fresh chain (`buildChain`); the new head
is queued at the tail of the child list and takes one reference on its
parent.  On allocation failure the cleanup label releases the nodes from
the deepest survivor back to the first newly created one; for a chain
begun at a fresh node this leaves the pre-existing tree untouched, while a
resurrected zombie head is itself released once (with its flags already
reset). -/
def CreateEntry (e : Entry) (segs : List String) (a : List Bool) :
    WalkOut × Entry × List Bool :=
  match segs with
  | [] => (WalkOut.okW [], e, a)
  | s :: rest =>
    match findChildWithIdx e.children s true 0 with
    | some (i, c) =>
      if rest.isEmpty then (WalkOut.fatalW, e, a)
      else if resTree_IsDeleted c then
        if c.children.isEmpty then
          let c1 := Entry.mk c.name c.etype newFlags c.res c.rc c.children
          match buildChain rest a with
          | (some h, a2) =>
            let c2 := Entry.mk c1.name c1.etype c1.flags c1.res (c1.rc + 1) [h]
            (WalkOut.okW (i :: List.replicate rest.length 0),
             Entry.mk e.name e.etype e.flags e.res e.rc (e.children.set i c2),
             a2)
          | (none, a2) =>
            let e1 := Entry.mk e.name e.etype e.flags e.res e.rc
                (e.children.set i c1)
            match releaseIn e1 [i] with
            | some e2 => (WalkOut.noMemW, e2, a2)
            | none => (WalkOut.fatalW, e, a2)
        else (WalkOut.fatalW, e, a)
      else
        match CreateEntry c rest a with
        | (WalkOut.okW ch, c2, a2) =>
          (WalkOut.okW (i :: ch),
           Entry.mk e.name e.etype e.flags e.res e.rc (e.children.set i c2), a2)
        | (WalkOut.noMemW, c2, a2) =>
          (WalkOut.noMemW,
           Entry.mk e.name e.etype e.flags e.res e.rc (e.children.set i c2), a2)
        | (WalkOut.fatalW, _, a2) => (WalkOut.fatalW, e, a2)
    | none =>
      match buildChain (s :: rest) a with
      | (some h, a2) =>
        (WalkOut.okW (e.children.length :: List.replicate rest.length 0),
         Entry.mk e.name e.etype e.flags e.res (e.rc + 1) (e.children ++ [h]),
         a2)
      | (none, a2) => (WalkOut.noMemW, e, a2)

/-- `FindEntry`: walk the segments following children; the lookup at each
step includes zombies (`resTree_FindChildEx(..., true)`) and then fails if
the child found is deleted, so a zombie anywhere on the path makes the
lookup fail.  Returns the index chain of the entry. -/
def FindEntry (e : Entry) : List String → Option (List Nat)
  | [] => some []
  | s :: rest =>
    match findChildWithIdx e.children s true 0 with
    | none => none
    | some (i, c) =>
      if resTree_IsDeleted c then none
      else
        match FindEntry c rest with
        | none => none
        | some l => some (i :: l)

/-- No deleted entry is encountered along the walk of the given segments
(the lookup at each step being the walk's own, zombie-inclusive one). -/
def zombieFree (e : Entry) : List String → Bool
  | [] => true
  | s :: rest =>
    match findChildWithIdx e.children s true 0 with
    | some (_, c) => !resTree_IsDeleted c && zombieFree c rest
    | none => true

/-- Result of the public tree operations (`le_result_t` plus the out
parameter): `ok` carries the entry reference as an index chain from the
root. -/
inductive OpRes where
  | ok (chain : List Nat)
  | badParameter
  | noMem
  | fatal
deriving DecidableEq, Repr

/-- `resTree_GetEntry`: reject malformed paths with `LE_BAD_PARAMETER`,
then `FindEntry`, then `CreateEntry` if nothing was found. -/
def resTree_GetEntry (t : Entry) (baseIdx : List Nat) (path : String)
    (a : List Bool) : OpRes × Entry × List Bool :=
  match parseSegs path.data with
  | none => (OpRes.badParameter, t, a)
  | some segs =>
    match entryAt t baseIdx with
    | none => (OpRes.fatal, t, a)
    | some base =>
      match FindEntry base segs with
      | some c => (OpRes.ok (baseIdx ++ c), t, a)
      | none =>
        match CreateEntry base segs a with
        | (WalkOut.okW c, base2, a2) =>
          (OpRes.ok (baseIdx ++ c), updateAt t baseIdx base2, a2)
        | (WalkOut.noMemW, base2, a2) =>
          (OpRes.noMem, updateAt t baseIdx base2, a2)
        | (WalkOut.fatalW, _, a2) => (OpRes.fatal, t, a2)

/-- `resTree_GetObsNamespace`: `resTree_GetEntry(root, "obs")`, creating
the namespace if needed; the `LE_ASSERT`s turn any failure into `none`
(fatal).  Note this can mutate the tree and consume an allocation. -/
def resTree_GetObsNamespace (t : Entry) (a : List Bool) :
    Option (List Nat) × Entry × List Bool :=
  match resTree_GetEntry t [] ("obs") a with
  | (OpRes.ok c, t1, a1) => (some c, t1, a1)
  | (_, t1, a1) => (none, t1, a1)

/-- `strncmp(path, "/obs/", 5) == 0`: the path literally begins with the
five bytes `/obs/`. -/
def startsWithObs (p : List Char) : Bool :=
  List.isPrefixOf ("/obs/".data) p

/-- Outcome of `CreatePlaceholderForNamespace`. -/
inductive PlaceOut where
  | okP
  | noMemP
  | fatalP
deriving DecidableEq, Repr

/-- `CreatePlaceholderForNamespace`: asserts the target entry is a
namespace; evaluates the routing rule — the left operand
`baseNamespace == resTree_GetObsNamespace()` always runs first and may
create `/obs` as a side effect — then allocates an observation placeholder
or an I/O placeholder accordingly (`res_CreateObsPlaceholder` /
`res_CreateIoPlaceholder`, one oracle step), attaching it and switching
the entry type to placeholder on success, or reporting `LE_NO_MEMORY`. -/
def CreatePlaceholderForNamespace (t : Entry) (baseIdx : List Nat)
    (path : String) (entryIdx : List Nat) (a : List Bool) :
    PlaceOut × Entry × List Bool :=
  match entryAt t entryIdx with
  | none => (PlaceOut.fatalP, t, a)
  | some en =>
    if en.etype = EntryType.nspace then
      match resTree_GetObsNamespace t a with
      | (none, t1, a1) => (PlaceOut.fatalP, t1, a1)
      | (some obsC, t1, a1) =>
        if (allocStep a1).1 then
          match entryAt t1 entryIdx with
          | none => (PlaceOut.fatalP, t1, (allocStep a1).2)
          | some en1 =>
            (PlaceOut.okP,
             updateAt t1 entryIdx
               (Entry.mk en1.name EntryType.placeholder en1.flags
                 (some (if (decide (baseIdx = obsC) || startsWithObs path.data)
                        then Res.obsPlaceholder else Res.ioPlaceholder))
                 en1.rc en1.children),
             (allocStep a1).2)
        else (PlaceOut.noMemP, t1, (allocStep a1).2)
    else (PlaceOut.fatalP, t, a)

/-- Second half of `resTree_GetResource`: promote a namespace entry to a
placeholder; on promotion failure release the entry once if (and only if)
it was created in this call. -/
def getResourcePromote (t : Entry) (baseIdx : List Nat) (path : String)
    (full : List Nat) (created : Bool) (a : List Bool) :
    OpRes × Entry × List Bool :=
  match entryAt t full with
  | none => (OpRes.fatal, t, a)
  | some e =>
    if e.etype = EntryType.nspace then
      match CreatePlaceholderForNamespace t baseIdx path full a with
      | (PlaceOut.okP, t2, a2) => (OpRes.ok full, t2, a2)
      | (PlaceOut.noMemP, t2, a2) =>
        if created then
          match releaseIn t2 full with
          | some t3 => (OpRes.noMem, t3, a2)
          | none => (OpRes.fatal, t2, a2)
        else (OpRes.noMem, t2, a2)
      | (PlaceOut.fatalP, t2, a2) => (OpRes.fatal, t2, a2)
    else (OpRes.ok full, t, a)

/-- `resTree_GetResource`: find or create the entry, then promote it to a
placeholder if a pure namespace resides there. -/
def resTree_GetResource (t : Entry) (baseIdx : List Nat) (path : String)
    (a : List Bool) : OpRes × Entry × List Bool :=
  match parseSegs path.data with
  | none => (OpRes.badParameter, t, a)
  | some segs =>
    match entryAt t baseIdx with
    | none => (OpRes.fatal, t, a)
    | some base =>
      match FindEntry base segs with
      | some c => getResourcePromote t baseIdx path (baseIdx ++ c) false a
      | none =>
        match CreateEntry base segs a with
        | (WalkOut.okW c, base2, a2) =>
          getResourcePromote (updateAt t baseIdx base2) baseIdx path
            (baseIdx ++ c) true a2
        | (WalkOut.noMemW, base2, a2) =>
          (OpRes.noMem, updateAt t baseIdx base2, a2)
        | (WalkOut.fatalW, _, a2) => (OpRes.fatal, t, a2)

/-- Second half of `resTree_GetObservation`, applied to the entry that
`resTree_GetResource` produced: convert a placeholder
(`res_ConvertPlaceholderToObs`; backup restore and change handlers are
external side effects), pass an observation through, refuse anything else
with `LE_BAD_PARAMETER`. -/
def getObservationConvert (t1 : Entry) (full : List Nat) (a1 : List Bool) :
    OpRes × Entry × List Bool :=
  match entryAt t1 full with
  | none => (OpRes.fatal, t1, a1)
  | some e =>
    if e.etype = EntryType.placeholder then
      (OpRes.ok full,
       updateAt t1 full
         (Entry.mk e.name EntryType.observation e.flags
           (e.res.map (fun _ => Res.obsRes)) e.rc e.children),
       a1)
    else if e.etype = EntryType.observation then (OpRes.ok full, t1, a1)
    else (OpRes.badParameter, t1, a1)

/-- `resTree_GetObservation`: `resTree_GetResource`, then convert the
resulting entry via `getObservationConvert`, propagating errors. -/
def resTree_GetObservation (t : Entry) (baseIdx : List Nat) (path : String)
    (a : List Bool) : OpRes × Entry × List Bool :=
  match resTree_GetResource t baseIdx path a with
  | (OpRes.ok full, t1, a1) => getObservationConvert t1 full a1
  | r => r

/-- Data types of samples (`io_DataType_t`). -/
inductive IoDataType where
  | trigger
  | boolean
  | numeric
  | strType
  | jsonType
deriving DecidableEq, Repr

/-- The value union of `DataSample_t`: trigger samples leave the union
unset (`sNone`); string and JSON samples share the string representation. -/
inductive SVal where
  | sNone
  | sBool (b : Bool)
  | sNum (q : Rat)
  | sStr (s : String)
deriving DecidableEq, Repr

/-- A data sample: timestamp (seconds as a rational, standing for the C
double) and value. -/
structure DataSample where
  timestamp : Rat
  value : SVal
deriving DecidableEq, Repr

/-- Modelled from the spec: the sentinel timestamp (`IO_NOW`) that means
"stamp at construction from the clock"; its concrete value is immaterial
to the claims, `0` is used. -/
def ioNow : Rat := 0

/-- `CreateSample`'s timestamp logic: the `IO_NOW` sentinel is replaced by
the current clock reading (passed in as `clockNow`). -/
def sampleStamp (clockNow ts : Rat) : Rat :=
  if ts = ioNow then clockNow else ts

/-- `dataSample_CreateTrigger`: one pool allocation. -/
def dataSample_CreateTrigger (clockNow ts : Rat) (a : List Bool) :
    Option DataSample × List Bool :=
  if (allocStep a).1 then
    (some ⟨sampleStamp clockNow ts, SVal.sNone⟩, (allocStep a).2)
  else (none, (allocStep a).2)

/-- `dataSample_CreateBoolean`. -/
def dataSample_CreateBoolean (clockNow ts : Rat) (v : Bool) (a : List Bool) :
    Option DataSample × List Bool :=
  if (allocStep a).1 then
    (some ⟨sampleStamp clockNow ts, SVal.sBool v⟩, (allocStep a).2)
  else (none, (allocStep a).2)

/-- `dataSample_CreateNumeric`. -/
def dataSample_CreateNumeric (clockNow ts : Rat) (v : Rat) (a : List Bool) :
    Option DataSample × List Bool :=
  if (allocStep a).1 then
    (some ⟨sampleStamp clockNow ts, SVal.sNum v⟩, (allocStep a).2)
  else (none, (allocStep a).2)

/-- `dataSample_CreateString`: allocates the sample object and then the
string copy (`le_mem_StrDup`); if the copy fails the sample is released
again and `NULL` is returned. -/
def dataSample_CreateString (clockNow ts : Rat) (v : String) (a : List Bool) :
    Option DataSample × List Bool :=
  if (allocStep a).1 then
    if (allocStep (allocStep a).2).1 then
      (some ⟨sampleStamp clockNow ts, SVal.sStr v⟩, (allocStep (allocStep a).2).2)
    else (none, (allocStep (allocStep a).2).2)
  else (none, (allocStep a).2)

/-- `dataSample_CreateJson` simply defers to `dataSample_CreateString`. -/
def dataSample_CreateJson (clockNow ts : Rat) (v : String) (a : List Bool) :
    Option DataSample × List Bool :=
  dataSample_CreateString clockNow ts v a

/-- `dataSample_GetString` / `dataSample_GetJson`: read the union's string
member.  Reading it on a non-string sample is undefined behaviour in the
C code; the model returns `""` there (never exercised by the claims). -/
def dataSample_GetString (s : DataSample) : String :=
  match s.value with
  | SVal.sStr v => v
  | _ => ""

/-- `dataSample_GetJson` (JSON shares the string storage). -/
def dataSample_GetJson (s : DataSample) : String :=
  dataSample_GetString s

/-- Result of `dataSample_ConvertToJson` on a buffer of a given size:
`okC` carries the buffer contents (excluding the null terminator). -/
inductive ConvOut where
  | okC (buf : List Char)
  | overflowC
  | fatalC
deriving DecidableEq, Repr

/-- `dataSample_ConvertToJson`: trigger prints `null`; booleans print
`true`/`false` via `snprintf` (overflow when the would-be length reaches
the buffer size); numerics print through the `%lf` formatter, passed in as
`numFmt` since its output is platform formatting, with the same `snprintf`
overflow rule; strings are wrapped in ASCII double quotes with no
escaping — at least 3 bytes of buffer are required, the payload is copied
after the opening quote into `size - 1` bytes and one more byte must
remain for the closing quote; JSON payloads are copied verbatim. -/
def dataSample_ConvertToJson (numFmt : Rat → String) (s : DataSample)
    (dt : IoDataType) (size : Nat) : ConvOut :=
  match dt with
  | IoDataType.trigger =>
    match leUtf8Copy ("null".data) size with
    | (true, w, _) => ConvOut.okC w
    | (false, _, _) => ConvOut.overflowC
  | IoDataType.boolean =>
    let tv := if (match s.value with | SVal.sBool b => b | _ => false)
              then "true".data else "false".data
    if size ≤ tv.length then ConvOut.overflowC else ConvOut.okC tv
  | IoDataType.numeric =>
    let r := (numFmt (match s.value with | SVal.sNum q => q | _ => 0)).data
    if size ≤ r.length then ConvOut.overflowC else ConvOut.okC r
  | IoDataType.strType =>
    if size < 3 then ConvOut.overflowC
    else
      if ((!(leUtf8Copy ((dataSample_GetString s).data) (size - 1)).1) = true ∨
          size - 1 - 1 ≤ (leUtf8Copy ((dataSample_GetString s).data) (size - 1)).2.2)
      then ConvOut.overflowC
      else ConvOut.okC ('"' :: ((dataSample_GetString s).data ++ ['"']))
  | IoDataType.jsonType =>
    match leUtf8Copy ((dataSample_GetString s).data) size with
    | (true, w, _) => ConvOut.okC w
    | (false, _, _) => ConvOut.overflowC

/-- JSON node types of the external parser (`json_DataType_t`). -/
inductive JsonType where
  | jnull
  | jbool
  | jnum
  | jstr
  | jobj
  | jarr
deriving DecidableEq, Repr

/-- The data type `dataSample_ExtractJson` assigns to each extracted JSON
node type. -/
def jsonTypeToDataType : JsonType → IoDataType
  | JsonType.jnull => IoDataType.trigger
  | JsonType.jbool => IoDataType.boolean
  | JsonType.jnum => IoDataType.numeric
  | JsonType.jstr => IoDataType.strType
  | JsonType.jobj => IoDataType.jsonType
  | JsonType.jarr => IoDataType.jsonType

/-- `dataSample_ExtractJson`: runs the external `json_Extract` (not part of
this repository; passed in as the function `jx` from JSON text and
extraction spec to the extracted text and its node type, `none` on
extraction failure).  On failure returns nothing; on success builds a
fresh sample of the mapped type carrying the source sample's timestamp,
converting the extracted text through the external `json_ConvertToBoolean`
/ `json_ConvertToNumber` (parameters `toBool` / `toNum`); a pool
allocation failure inside the constructors also returns nothing. -/
def dataSample_ExtractJson (jx : String → String → Option (String × JsonType))
    (toBool : String → Bool) (toNum : String → Rat) (clockNow : Rat)
    (src : DataSample) (spec : String) (a : List Bool) :
    Option (DataSample × IoDataType) × List Bool :=
  match jx (dataSample_GetJson src) spec with
  | none => (none, a)
  | some (buf, jt) =>
    match jt with
    | JsonType.jnull =>
      match dataSample_CreateTrigger clockNow src.timestamp a with
      | (some s, a1) => (some (s, IoDataType.trigger), a1)
      | (none, a1) => (none, a1)
    | JsonType.jbool =>
      match dataSample_CreateBoolean clockNow src.timestamp (toBool buf) a with
      | (some s, a1) => (some (s, IoDataType.boolean), a1)
      | (none, a1) => (none, a1)
    | JsonType.jnum =>
      match dataSample_CreateNumeric clockNow src.timestamp (toNum buf) a with
      | (some s, a1) => (some (s, IoDataType.numeric), a1)
      | (none, a1) => (none, a1)
    | JsonType.jstr =>
      match dataSample_CreateString clockNow src.timestamp buf a with
      | (some s, a1) => (some (s, IoDataType.strType), a1)
      | (none, a1) => (none, a1)
    | JsonType.jobj =>
      match dataSample_CreateJson clockNow src.timestamp buf a with
      | (some s, a1) => (some (s, IoDataType.jsonType), a1)
      | (none, a1) => (none, a1)
    | JsonType.jarr =>
      match dataSample_CreateJson clockNow src.timestamp buf a with
      | (some s, a1) => (some (s, IoDataType.jsonType), a1)
      | (none, a1) => (none, a1)

/-- Outcome of `resTree_Push`: pushing to a namespace releases the sample
and reports `LE_BAD_PARAMETER`; all resource-carrying entry types delegate
to `res_Push` on the attached resource. -/
inductive PushOut where
  | releasedBadParameter
  | delegated (r : Option Res) (dt : IoDataType) (s : DataSample)
  | fatalPush
deriving DecidableEq, Repr

/-- `resTree_Push` dispatch on the entry type. -/
def resTree_Push (e : Entry) (dt : IoDataType) (s : DataSample) : PushOut :=
  match e.etype with
  | EntryType.input => PushOut.delegated e.res dt s
  | EntryType.output => PushOut.delegated e.res dt s
  | EntryType.observation => PushOut.delegated e.res dt s
  | EntryType.placeholder => PushOut.delegated e.res dt s
  | EntryType.nspace => PushOut.releasedBadParameter
  | EntryType.noneType => PushOut.fatalPush

/-- Behaviour of an observation-only setter at the facade: either a no-op
(with or without a critical log) or an unconditional delegation to the
entry's `u.resourcePtr` (which for a namespace entry is the flag word
reinterpreted, modelled by `none`). -/
inductive SetOut where
  | noop
  | critLogNoop
  | delegated (r : Option Res) (p : Rat)
deriving DecidableEq, Repr

/-- `resTree_SetMinPeriod`: the body is a single unconditional
`res_SetMinPeriod(obsEntry->u.resourcePtr, minPeriod)` — there is no
entry-type precondition check. -/
def resTree_SetMinPeriod (e : Entry) (p : Rat) : SetOut :=
  SetOut.delegated e.res p

/-- Behaviour of the buffer statistics queries: the NaN sentinel for
non-observations, otherwise delegation to the resource. -/
inductive QueryOut where
  | nanSentinel
  | delegatedQ (r : Res) (startTime : Rat)
  | assertFailQ
deriving DecidableEq, Repr

/-- `resTree_QueryMin`: NaN unless the entry is an observation, else
`res_QueryMin` on the (asserted non-null) resource. -/
def resTree_QueryMin (e : Entry) (startTime : Rat) : QueryOut :=
  if e.etype = EntryType.observation then
    match e.res with
    | some r => QueryOut.delegatedQ r startTime
    | none => QueryOut.assertFailQ
  else QueryOut.nanSentinel

/-- `resTree_QueryMax` (same guard as `resTree_QueryMin`). -/
def resTree_QueryMax (e : Entry) (startTime : Rat) : QueryOut :=
  if e.etype = EntryType.observation then
    match e.res with
    | some r => QueryOut.delegatedQ r startTime
    | none => QueryOut.assertFailQ
  else QueryOut.nanSentinel

/-- `resTree_QueryMean` (same guard). -/
def resTree_QueryMean (e : Entry) (startTime : Rat) : QueryOut :=
  if e.etype = EntryType.observation then
    match e.res with
    | some r => QueryOut.delegatedQ r startTime
    | none => QueryOut.assertFailQ
  else QueryOut.nanSentinel

/-- `resTree_QueryStdDev` (same guard). -/
def resTree_QueryStdDev (e : Entry) (startTime : Rat) : QueryOut :=
  if e.etype = EntryType.observation then
    match e.res with
    | some r => QueryOut.delegatedQ r startTime
    | none => QueryOut.assertFailQ
  else QueryOut.nanSentinel

/-- Behaviour of `resTree_GetJsonExtraction`: the empty-string sentinel
for non-observations (with a debug log), otherwise delegation. -/
inductive JxOut where
  | emptyString
  | delegatedJx (r : Res)
  | assertFailJx
deriving DecidableEq, Repr

/-- `resTree_GetJsonExtraction`. -/
def resTree_GetJsonExtraction (e : Entry) : JxOut :=
  if e.etype = EntryType.observation then
    match e.res with
    | some r => JxOut.delegatedJx r
    | none => JxOut.assertFailJx
  else JxOut.emptyString

/-- The tree right after `resTree_Init`: only the root, named `""`, flag
word NEW, one (self) reference, no children. -/
def emptyRoot : Entry := Entry.mk "" EntryType.nspace newFlags none 1 []

/-- Flag word of a zombie: DELETED set, NEW clear (as `resTree_SetDeleted`
requires). -/
def zombieFlags : Flags := ⟨false, false, false, true⟩

/-- A root whose only child `a` is a zombie (a deleted namespace retained
until the next snapshot flush); the root holds its self count plus the
child's reference. -/
def zombieChildTree : Entry :=
  Entry.mk "" EntryType.nspace newFlags none 2
    [Entry.mk "a" EntryType.nspace zombieFlags none 1 []]

/-- A root whose only child `a` is an Input resource. -/
def inputChildTree : Entry :=
  Entry.mk "" EntryType.nspace newFlags none 2
    [Entry.mk "a" EntryType.input newFlags (some Res.inputRes) 1 []]

/-- A root whose only child `n` is a live namespace. -/
def nsChildTree : Entry :=
  Entry.mk "" EntryType.nspace newFlags none 2
    [Entry.mk "n" EntryType.nspace newFlags none 1 []]

/-- A root whose only child `a` is a live namespace. -/
def liveChildTree : Entry :=
  Entry.mk "" EntryType.nspace newFlags none 2
    [Entry.mk "a" EntryType.nspace newFlags none 1 []]

/-- A standalone Input entry (for the facade operations). -/
def inputEntry : Entry :=
  Entry.mk "x" EntryType.input newFlags (some Res.inputRes) 1 []

/-- A standalone namespace entry. -/
def nsEntry : Entry := Entry.mk "x" EntryType.nspace newFlags none 1 []

/-- A fixed numeric formatter for concrete evaluations. -/
def fmt0 : Rat → String := fun _ => "0"

/-- A fixed extraction function for concrete evaluations: always extracts
a number node. -/
def jx0 : String → String → Option (String × JsonType) :=
  fun _ _ => some ("7", JsonType.jnum)

/-- A fixed boolean conversion for concrete evaluations. -/
def tb0 : String → Bool := fun _ => false

/-- A fixed number conversion for concrete evaluations. -/
def tn0 : String → Rat := fun _ => 7

/-! ### Basic lemmas about entries, lists and lookups -/

@[simp] theorem Entry_name_mk (n t f r c ch) : (Entry.mk n t f r c ch).name = n := rfl

@[simp] theorem Entry_etype_mk (n t f r c ch) : (Entry.mk n t f r c ch).etype = t := rfl

@[simp] theorem Entry_flags_mk (n t f r c ch) : (Entry.mk n t f r c ch).flags = f := rfl

@[simp] theorem Entry_res_mk (n t f r c ch) : (Entry.mk n t f r c ch).res = r := rfl

@[simp] theorem Entry_rc_mk (n t f r c ch) : (Entry.mk n t f r c ch).rc = c := rfl

@[simp] theorem Entry_children_mk (n t f r c ch) : (Entry.mk n t f r c ch).children = ch := rfl

theorem Entry_eta (e : Entry) :
    Entry.mk e.name e.etype e.flags e.res e.rc e.children = e := by
  cases e
  rfl

theorem list_set_of_get {α : Type} : ∀ (l : List α) (i : Nat) (a : α),
    l.get? i = some a → l.set i a = l := by
  intro l
  induction l with
  | nil => intro i a h; simp [List.get?] at h
  | cons x t ih =>
    intro i a h
    cases i with
    | zero =>
      simp [List.get?] at h
      simp [List.set, h]
    | succ n =>
      simp only [List.get?] at h
      simp [List.set, ih n a h]

theorem list_get_set_some {α : Type} : ∀ (l : List α) (i : Nat) (c b : α),
    l.get? i = some c → (l.set i b).get? i = some b := by
  intro l
  induction l with
  | nil => intro i c b h; simp [List.get?] at h
  | cons x t ih =>
    intro i c b h
    cases i with
    | zero => simp [List.set, List.get?]
    | succ n =>
      simp only [List.get?] at h
      simp only [List.set, List.get?]
      exact ih n c b h

theorem findChildWithIdx_spec : ∀ (l : List Entry) (nm : String) (wz : Bool)
    (k i : Nat) (c : Entry), findChildWithIdx l nm wz k = some (i, c) →
    k ≤ i ∧ l.get? (i - k) = some c ∧ c.name = nm := by
  intro l
  induction l with
  | nil => intro nm wz k i c h; simp [findChildWithIdx] at h
  | cons x t ih =>
    intro nm wz k i c h
    unfold findChildWithIdx at h
    split at h
    · rename_i hcond
      injection h with h'
      injection h' with h1 h2
      subst h1; subst h2
      refine ⟨Nat.le_refl _, ?_, hcond.2⟩
      simp [List.get?]
    · have h3 := ih nm wz (k + 1) i c h
      refine ⟨Nat.le_trans (Nat.le_succ k) h3.1, ?_, h3.2.2⟩
      have hik : i - k = (i - (k + 1)) + 1 := by omega
      rw [hik]
      simpa [List.get?] using h3.2.1

theorem entryAt_append : ∀ (x y : List Nat) (t : Entry),
    entryAt t (x ++ y) =
      match entryAt t x with
      | none => none
      | some e => entryAt e y := by
  intro x
  induction x with
  | nil => intro y t; simp [entryAt]
  | cons i rest ih =>
    intro y t
    simp only [List.cons_append, entryAt]
    cases h : t.children.get? i with
    | none => rfl
    | some c => exact ih y c

theorem updateAt_self : ∀ (c : List Nat) (t e : Entry),
    entryAt t c = some e → updateAt t c e = t := by
  intro c
  induction c with
  | nil =>
    intro t e h
    simp [entryAt] at h
    simp [updateAt, h]
  | cons i rest ih =>
    intro t e h
    simp only [entryAt] at h
    cases hg : t.children.get? i with
    | none => rw [hg] at h; exact absurd h (by simp)
    | some c0 =>
      rw [hg] at h
      simp only [updateAt, hg]
      rw [ih c0 e h, list_set_of_get _ _ _ hg, Entry_eta]

theorem entryAt_updateAt : ∀ (c : List Nat) (t x e2 : Entry),
    entryAt t c = some x → entryAt (updateAt t c e2) c = some e2 := by
  intro c
  induction c with
  | nil => intro t x e2 _; simp [entryAt, updateAt]
  | cons i rest ih =>
    intro t x e2 h
    simp only [entryAt] at h
    cases hg : t.children.get? i with
    | none => rw [hg] at h; exact absurd h (by simp)
    | some c0 =>
      rw [hg] at h
      simp only [updateAt, hg, entryAt, Entry_children_mk]
      rw [list_get_set_some _ _ _ _ hg]
      exact ih c0 x e2 h

/-! ### Path parsing and rendering lemmas -/

theorem splitSlash_ne_nil : ∀ cs, splitSlash cs ≠ [] := by
  intro cs
  cases cs with
  | nil => simp [splitSlash]
  | cons c rest =>
    unfold splitSlash
    split
    · simp
    · cases h : splitSlash rest with
      | nil => simp
      | cons seg segs => simp

theorem splitSlash_join : ∀ cs, joinParts (splitSlash cs) = cs := by
  intro cs
  induction cs with
  | nil => rfl
  | cons c rest ih =>
    unfold splitSlash
    split
    · rename_i hc
      obtain ⟨q, qs, hqs⟩ := List.exists_cons_of_ne_nil (splitSlash_ne_nil rest)
      rw [hqs] at ih ⊢
      simp only [joinParts, List.nil_append]
      rw [ih, hc]
    · cases hsp : splitSlash rest with
      | nil => exact absurd hsp (splitSlash_ne_nil rest)
      | cons seg segs =>
        rw [hsp] at ih
        cases segs with
        | nil =>
          simp only [joinParts] at ih ⊢
          rw [ih]
        | cons q qs =>
          simp only [joinParts, List.cons_append] at ih ⊢
          rw [ih]

theorem renderAbs_map_join : ∀ (parts : List (List Char)), parts ≠ [] →
    renderAbs (parts.map (fun p => String.mk p)) = '/' :: joinParts parts := by
  intro parts
  induction parts with
  | nil => intro h; exact absurd rfl h
  | cons p rest ih =>
    intro _
    cases rest with
    | nil => simp [renderAbs, joinParts]
    | cons q qs =>
      have hmap : ((p :: q :: qs).map (fun p => String.mk p)) =
          String.mk p :: ((q :: qs).map (fun p => String.mk p)) := rfl
      rw [hmap]
      have hrender : renderAbs (String.mk p :: ((q :: qs).map (fun p => String.mk p))) =
          '/' :: ((String.mk p).data ++ renderAbs ((q :: qs).map (fun p => String.mk p))) := rfl
      rw [hrender, ih (by simp)]
      simp [joinParts]

theorem parse_absolute : ∀ (cs : List Char) (segs : List String),
    parseSegs cs = some segs → cs.head? = some '/' →
    segs ≠ [] ∧ renderAbs segs = cs := by
  intro cs segs hp hh
  cases cs with
  | nil => simp at hh
  | cons c rest =>
    simp only [List.head?] at hh
    injection hh with hc
    subst hc
    have hbody : parseBody rest = some segs := by
      simpa only [parseSegs, if_pos rfl] using hp
    unfold parseBody at hbody
    split at hbody
    · exact absurd hbody (by simp)
    · injection hbody with hsegs
      subst hsegs
      constructor
      · have := splitSlash_ne_nil rest
        simpa using this
      · rw [renderAbs_map_join (splitSlash rest) (splitSlash_ne_nil rest),
            splitSlash_join]

theorem charBytes_slash : charBytes '/' = 1 := by decide

theorem charsBytes_append : ∀ (a b : List Char),
    charsBytes (a ++ b) = charsBytes a + charsBytes b := by
  intro a b
  induction a with
  | nil => simp [charsBytes]
  | cons c t ih => simp [charsBytes, ih]; omega

theorem charsBytes_renderAbs : ∀ (segs : List String),
    charsBytes (renderAbs segs) = bytesSegs segs := by
  intro segs
  induction segs with
  | nil => rfl
  | cons s rest ih =>
    simp only [renderAbs, bytesSegs, charsBytes, charBytes_slash,
      charsBytes_append, ih]
    omega

theorem bytesSegs_append : ∀ (a b : List String),
    bytesSegs (a ++ b) = bytesSegs a + bytesSegs b := by
  intro a b
  induction a with
  | nil => simp [bytesSegs]
  | cons s t ih => simp [bytesSegs, ih]; omega

theorem bytesSegs_reverse : ∀ (l : List String),
    bytesSegs l.reverse = bytesSegs l := by
  intro l
  induction l with
  | nil => rfl
  | cons s t ih =>
    simp only [List.reverse_cons, bytesSegs_append, ih, bytesSegs]
    omega

theorem renderRev_append : ∀ (a b : List String),
    renderRev (a ++ b) = renderRev b ++ renderRev a := by
  intro a b
  induction a with
  | nil => simp [renderRev]
  | cons x t ih => simp [renderRev, ih]

theorem renderRev_reverse : ∀ (l : List String),
    renderRev l.reverse = renderAbs l := by
  intro l
  induction l with
  | nil => rfl
  | cons s rest ih =>
    simp only [List.reverse_cons, renderRev_append, renderRev, renderAbs, ih]
    simp

theorem leUtf8Copy_ok (src : List Char) (size : Nat)
    (h : charsBytes src + 1 ≤ size) :
    leUtf8Copy src size = (true, src, charsBytes src) := by
  unfold leUtf8Copy
  rw [if_pos h]

theorem charsBytes_slash_single : charsBytes (['/']) = 1 := by decide

theorem appendSeg_ok (size len : Nat) (s : List Char) (n : String)
    (h1 : charsBytes (['/']) + 1 ≤ size - len)
    (h2 : charsBytes n.data + 1 ≤ size - len - 1) :
    appendSeg size (PathOut.ok s len) n =
      PathOut.ok (s ++ '/' :: n.data) (len + 1 + charsBytes n.data) := by
  simp only [appendSeg, leUtf8Copy_ok _ _ h1, leUtf8Copy_ok _ _ h2, if_pos rfl,
    if_true]

theorem getPathRev_ok : ∀ (r : List String) (size : Nat), r ≠ [] →
    bytesSegs r + 1 ≤ size →
    getPathRev size true r = PathOut.ok (renderRev r) (bytesSegs r) := by
  intro r
  induction r with
  | nil => intro size h; exact absurd rfl h
  | cons n t ih =>
    intro size _ hsz
    cases t with
    | nil =>
      have hun : bytesSegs [n] = 1 + charsBytes n.data + 0 := rfl
      have h1 : charsBytes (['/']) + 1 ≤ size := by
        rw [charsBytes_slash_single]; omega
      have h2 : charsBytes n.data + 1 ≤ size - 1 := by omega
      simp only [getPathRev, if_pos rfl, leUtf8Copy_ok _ _ h1,
        leUtf8Copy_ok _ _ h2, if_true]
      simp only [renderRev, bytesSegs, List.nil_append, Nat.add_zero]
    | cons m rest =>
      have hun : bytesSegs (n :: m :: rest) =
          1 + charsBytes n.data + bytesSegs (m :: rest) := rfl
      have hszt : bytesSegs (m :: rest) + 1 ≤ size := by omega
      have hrec := ih size (by simp) hszt
      have h1 : charsBytes (['/']) + 1 ≤ size - bytesSegs (m :: rest) := by
        rw [charsBytes_slash_single]; omega
      have h2 : charsBytes n.data + 1 ≤ size - bytesSegs (m :: rest) - 1 := by
        omega
      simp only [getPathRev]
      rw [hrec, appendSeg_ok size (bytesSegs (m :: rest)) (renderRev (m :: rest)) n h1 h2]
      simp only [renderRev]
      congr 1
      omega

theorem FindEntry_names : ∀ (segs : List String) (e : Entry) (idx : List Nat),
    FindEntry e segs = some idx → namesAt e idx = some segs := by
  intro segs
  induction segs with
  | nil =>
    intro e idx h
    simp only [FindEntry] at h
    injection h with h
    subst h
    rfl
  | cons s rest ih =>
    intro e idx h
    unfold FindEntry at h
    split at h
    · exact absurd h (by simp)
    · rename_i p i c hf
      split at h
      · exact absurd h (by simp)
      · split at h
        · exact absurd h (by simp)
        · rename_i l hfe
          injection h with h
          subst h
          obtain ⟨-, hget, hname⟩ := findChildWithIdx_spec e.children s true 0 i c hf
          simp only [Nat.sub_zero] at hget
          simp only [namesAt, hget, ih c l hfe, hname]

/-! ### Claims C4 and C10: path rendering -/

/-- C4 (amended): for every well-formed absolute path `p` (beginning with
`'/'`), if `find(root, p)` returns an entry then `resTree_GetPath` with the
root as base renders exactly `p` into any buffer of at least `|p| + 1`
bytes, reporting `|p|` bytes written.  (As stated over all paths the claim
fails: for a relative path the rendering prepends a leading `'/'`; see the
counterexample.) -/
theorem c4_find_getPath_roundtrip : ∀ (t : Entry) (p : String)
    (segs : List String) (idx : List Nat) (size : Nat),
    p.data.head? = some '/' →
    parseSegs p.data = some segs →
    FindEntry t segs = some idx →
    charsBytes p.data + 1 ≤ size →
    resTree_GetPath size t [] idx = PathOut.ok p.data (charsBytes p.data) := by
  intro t p segs idx size hhead hparse hfind hsz
  obtain ⟨hne, hrender⟩ := parse_absolute p.data segs hparse hhead
  have hnames : namesAt t idx = some segs := FindEntry_names segs t idx hfind
  have hrevne : segs.reverse ≠ [] := by
    intro hcon
    exact hne (List.reverse_eq_nil_iff.mp hcon)
  have hbytes : bytesSegs segs.reverse = charsBytes p.data := by
    rw [bytesSegs_reverse, ← charsBytes_renderAbs, hrender]
  have hstep : resTree_GetPath size t [] idx =
      (match namesAt t idx with
       | none => PathOut.fatal
       | some names => getPathRev size true names.reverse) := rfl
  rw [hstep, hnames]
  show getPathRev size true segs.reverse = PathOut.ok p.data (charsBytes p.data)
  rw [getPathRev_ok segs.reverse size hrevne (by rw [hbytes]; exact hsz),
      renderRev_reverse, hrender, hbytes]

/-- Witness for C4 at a concrete input: the absolute path `/a` in a tree
with one live child `a` round-trips through find and path rendering. -/
theorem c4_witness :
    resTree_GetPath 10 liveChildTree [] [0] =
      PathOut.ok ("/a".data) (charsBytes ("/a".data)) :=
  c4_find_getPath_roundtrip liveChildTree "/a" ["a"] [0] 10 (by decide)
    (by decide) (by decide) (by decide)

/-- Counterexample to C4 as stated: for the relative path `a`,
`find(root, "a")` succeeds but the rendering is `/a`, not `a`. -/
theorem c4_counterexample :
    parseSegs ("a".data) = some ["a"] ∧
    FindEntry liveChildTree ["a"] = some [0] ∧
    resTree_GetPath 10 liveChildTree [] [0] = PathOut.ok ("/a".data) 2 ∧
    ("/a".data) ≠ ("a".data) := by
  refine ⟨by decide, by decide, by decide, by decide⟩

/-- C10 (confirmed): rendering the path of an entry relative to itself,
with any buffer of at least one byte, succeeds with the empty string and
zero bytes written (`LE_OK`); in particular it is neither `Overflow` nor
`NotFound`. -/
theorem c10_getPath_self : ∀ (size : Nat) (t : Entry) (baseIdx : List Nat)
    (base : Entry), 1 ≤ size → entryAt t baseIdx = some base →
    resTree_GetPath size t baseIdx [] = PathOut.ok [] 0 := by
  intro size t baseIdx base hs hb
  unfold resTree_GetPath
  rw [hb]
  show (if size = 0 then PathOut.fatal else PathOut.ok [] 0) = PathOut.ok [] 0
  exact if_neg (by omega)

/-- Witness for C10 at a concrete input. -/
theorem c10_witness : resTree_GetPath 4 emptyRoot [] [] = PathOut.ok [] 0 :=
  c10_getPath_self 4 emptyRoot [] emptyRoot (by omega) rfl

/-! ### Claim C2: rollback on allocation failure -/

theorem zombieFree_cons (e : Entry) (s : String) (rest : List String) (i : Nat)
    (c : Entry) (hf : findChildWithIdx e.children s true 0 = some (i, c))
    (hz : zombieFree e (s :: rest) = true) :
    resTree_IsDeleted c = false ∧ zombieFree c rest = true := by
  unfold zombieFree at hz
  split at hz
  · rename_i p i2 c2 heq
    rw [hf] at heq
    injection heq with heq
    injection heq with h1 h2
    subst h2
    rw [Bool.and_eq_true, Bool.not_eq_true'] at hz
    exact hz
  · rename_i heq
    rw [hf] at heq
    exact absurd heq (by simp)

theorem CreateEntry_noMem_eq : ∀ (segs : List String) (e : Entry)
    (a a2 : List Bool) (e2 : Entry),
    zombieFree e segs = true →
    CreateEntry e segs a = (WalkOut.noMemW, e2, a2) → e2 = e := by
  intro segs
  induction segs with
  | nil =>
    intro e a a2 e2 _ h
    exact absurd h (by simp [CreateEntry])
  | cons s rest ih =>
    intro e a a2 e2 hzf h
    unfold CreateEntry at h
    split at h
    · rename_i p i c hf
      obtain ⟨hdel, hzfc⟩ := zombieFree_cons e s rest i c hf hzf
      split at h
      · exact absurd h (by simp)
      · split at h
        · rename_i hdel2
          rw [hdel] at hdel2
          exact absurd hdel2 (by simp)
        · split at h
          · exact absurd h (by simp)
          · rename_i c2 a3 heq
            injection h with h1 h23
            injection h23 with h2 h3
            have hc2 : c2 = c := ih c a a3 c2 hzfc heq
            obtain ⟨-, hget, -⟩ := findChildWithIdx_spec e.children s true 0 i c hf
            simp only [Nat.sub_zero] at hget
            rw [← h2, hc2, list_set_of_get _ _ _ hget, Entry_eta]
          · exact absurd h (by simp)
    · split at h
      · exact absurd h (by simp)
      · injection h with h1 h23
        injection h23 with h2 h3
        exact h2.symm

/-- C2 (amended): when the entry-creation walk for a path hits an
allocation failure, `resTree_GetEntry` returns `LE_NO_MEMORY` and — provided
no deleted (zombie) entry occupies a segment of the walk — the rollback
leaves the tree exactly as it was before the call.  (The unqualified claim
fails: a zombie resurrected during the failed walk has its flags reset and
is released once rather than restored; see the counterexample.) -/
theorem c2_getEntry_noMem_rollback : ∀ (t : Entry) (baseIdx : List Nat)
    (path : String) (a : List Bool) (segs : List String) (base : Entry)
    (t2 : Entry) (a2 : List Bool),
    parseSegs path.data = some segs →
    entryAt t baseIdx = some base →
    zombieFree base segs = true →
    resTree_GetEntry t baseIdx path a = (OpRes.noMem, t2, a2) → t2 = t := by
  intro t baseIdx path a segs base t2 a2 hp hb hzf h
  unfold resTree_GetEntry at h
  split at h
  · rename_i heq
    rw [hp] at heq
    exact absurd heq (by simp)
  · rename_i segs2 heq
    rw [hp] at heq
    injection heq with heq
    subst heq
    split at h
    · rename_i heq2
      rw [hb] at heq2
      exact absurd heq2 (by simp)
    · rename_i base2 heq2
      rw [hb] at heq2
      injection heq2 with heq2
      subst heq2
      split at h
      · exact absurd h (by simp)
      · split at h
        · exact absurd h (by simp)
        · rename_i base3 a3 heq3
          injection h with h1 h23
          injection h23 with h2 h3
          rw [← h2, CreateEntry_noMem_eq segs base a a3 base3 hzf heq3,
              updateAt_self baseIdx t base hb]
        · exact absurd h (by simp)

/-- Witness for C2 at a concrete input: on the empty tree, creating `a/b`
with the second allocation failing returns the tree unchanged. -/
theorem c2_witness :
    (resTree_GetEntry emptyRoot [] ("a/b") [true, false]).2.1 = emptyRoot :=
  c2_getEntry_noMem_rollback emptyRoot [] "a/b" [true, false] ["a", "b"]
    emptyRoot ((resTree_GetEntry emptyRoot [] ("a/b") [true, false]).2.1)
    ((resTree_GetEntry emptyRoot [] ("a/b") [true, false]).2.2)
    (by decide) rfl (by decide) rfl

/-- Counterexample to C2 as stated: with a zombie `a` under the root,
creating `a/b` with the allocation for `b` failing returns `LE_NO_MEMORY`
but does not leave the tree as it was — the zombie was resurrected and the
rollback's release destroys it, so the pre-existing zombie entry is gone
(the root's child list becomes empty). -/
theorem c2_counterexample :
    (resTree_GetEntry zombieChildTree [] ("a/b") [false]).1 = OpRes.noMem ∧
    (resTree_GetEntry zombieChildTree [] ("a/b") [false]).2.1.children.length = 0 ∧
    zombieChildTree.children.length = 1 :=
  ⟨rfl, rfl, rfl⟩

/-! ### Claim C3: zombies during creation -/

/-- C3 (code bug): with a zombie occupying the FINAL segment of the path,
`resTree_GetEntry` hits `LE_FATAL` ("Attempting to create an entry that
already exists") instead of resurrecting the zombie: the lookup treats the
zombie as absent, so `CreateEntry` runs, and its fatal guard
`childPtr != NULL && *terminatorPtr == '\0'` does not exempt deleted
children.  A zombie at an INTERMEDIATE segment is resurrected as the claim
states (flags reset to NEW, children empty, same node).  The last conjunct
records that `a` really is deleted in the starting tree. -/
theorem c3_zombie_final_segment_fatal :
    resTree_GetEntry zombieChildTree [] ("a") [true] =
      (OpRes.fatal, zombieChildTree, [true]) ∧
    (resTree_GetEntry zombieChildTree [] ("a/b") [true]).1 = OpRes.ok [0, 0] ∧
    ((entryAt (resTree_GetEntry zombieChildTree [] ("a/b") [true]).2.1 [0]).map
      Entry.flags) = some newFlags ∧
    ((entryAt zombieChildTree [0]).map resTree_IsDeleted) = some true :=
  ⟨rfl, rfl, rfl, rfl⟩

/-! ### Claim C8: push dispatch -/

/-- C8 (confirmed): pushing a data sample to a namespace entry releases the
sample and returns `LE_BAD_PARAMETER`; pushes to placeholder, input,
output, and observation entries are delegated to the attached resource. -/
theorem c8_push_dispatch : ∀ (e : Entry) (dt : IoDataType) (s : DataSample),
    (e.etype = EntryType.nspace →
      resTree_Push e dt s = PushOut.releasedBadParameter) ∧
    ((e.etype = EntryType.placeholder ∨ e.etype = EntryType.input ∨
      e.etype = EntryType.output ∨ e.etype = EntryType.observation) →
      resTree_Push e dt s = PushOut.delegated e.res dt s) := by
  intro e dt s
  constructor
  · intro h
    unfold resTree_Push
    rw [h]
  · rintro (h | h | h | h) <;> (unfold resTree_Push; rw [h])

/-- Witness for C8 at concrete entries. -/
theorem c8_witness :
    resTree_Push nsEntry IoDataType.trigger ⟨0, SVal.sNone⟩ =
      PushOut.releasedBadParameter ∧
    resTree_Push inputEntry IoDataType.trigger ⟨0, SVal.sNone⟩ =
      PushOut.delegated inputEntry.res IoDataType.trigger ⟨0, SVal.sNone⟩ :=
  ⟨(c8_push_dispatch nsEntry IoDataType.trigger ⟨0, SVal.sNone⟩).1 rfl,
   (c8_push_dispatch inputEntry IoDataType.trigger ⟨0, SVal.sNone⟩).2
     (Or.inr (Or.inl rfl))⟩

/-! ### Claim C9: facade precondition checks -/

/-- C9 (amended): the buffer statistics queries QueryMin/Max/Mean/StdDev
return the NaN sentinel, and GetJsonExtraction returns the empty string,
when applied to a non-observation entry, without touching its state; but
`resTree_SetMinPeriod` performs NO precondition check: it delegates
unconditionally to the entry's `u.resourcePtr`, so the observation-only
setters are not uniformly no-ops on non-observations. -/
theorem c9_facade_sentinels : ∀ (e : Entry) (st p : Rat),
    e.etype ≠ EntryType.observation →
    resTree_QueryMin e st = QueryOut.nanSentinel ∧
    resTree_QueryMax e st = QueryOut.nanSentinel ∧
    resTree_QueryMean e st = QueryOut.nanSentinel ∧
    resTree_QueryStdDev e st = QueryOut.nanSentinel ∧
    resTree_GetJsonExtraction e = JxOut.emptyString ∧
    resTree_SetMinPeriod e p = SetOut.delegated e.res p := by
  intro e st p h
  refine ⟨?_, ?_, ?_, ?_, ?_, rfl⟩ <;>
    simp [resTree_QueryMin, resTree_QueryMax, resTree_QueryMean,
      resTree_QueryStdDev, resTree_GetJsonExtraction, h]

/-- Witness for C9 at a concrete non-observation entry. -/
theorem c9_witness :
    resTree_QueryMin inputEntry 0 = QueryOut.nanSentinel ∧
    resTree_QueryMax inputEntry 0 = QueryOut.nanSentinel ∧
    resTree_QueryMean inputEntry 0 = QueryOut.nanSentinel ∧
    resTree_QueryStdDev inputEntry 0 = QueryOut.nanSentinel ∧
    resTree_GetJsonExtraction inputEntry = JxOut.emptyString ∧
    resTree_SetMinPeriod inputEntry 1 = SetOut.delegated inputEntry.res 1 :=
  c9_facade_sentinels inputEntry 0 1 (by decide)

/-- Counterexample to C9 as stated: `resTree_SetMinPeriod` applied to an
Input entry is a delegation to the attached resource, not a no-op (with or
without a critical log) as the claim requires of observation-only setters
on non-observations. -/
theorem c9_counterexample :
    inputEntry.etype ≠ EntryType.observation ∧
    resTree_SetMinPeriod inputEntry 1 ≠ SetOut.noop ∧
    resTree_SetMinPeriod inputEntry 1 ≠ SetOut.critLogNoop := by
  refine ⟨by decide, by decide, by decide⟩

/-! ### Claim C5: JSON conversion of string samples -/

theorem leUtf8Copy_fst_fail (src : List Char) (size : Nat)
    (h : ¬(charsBytes src + 1 ≤ size)) : (leUtf8Copy src size).1 = false := by
  unfold leUtf8Copy
  rw [if_neg h]

theorem convertToJson_str (numFmt : Rat → String) (s : DataSample) (size : Nat) :
    dataSample_ConvertToJson numFmt s IoDataType.strType size =
      (if size < 3 then ConvOut.overflowC
       else
         if ((!(leUtf8Copy ((dataSample_GetString s).data) (size - 1)).1) = true ∨
             size - 1 - 1 ≤ (leUtf8Copy ((dataSample_GetString s).data) (size - 1)).2.2)
         then ConvOut.overflowC
         else ConvOut.okC ('"' :: ((dataSample_GetString s).data ++ ['"']))) := rfl

/-- C5 (confirmed): converting a string sample to JSON wraps the payload in
ASCII double quotes with no escaping; it succeeds exactly when the buffer
holds the quoted payload plus the null terminator (payload bytes + 3), and
returns `LE_OVERFLOW` otherwise — in particular for any buffer smaller
than 3 bytes. -/
theorem c5_convert_string_quotes : ∀ (numFmt : Rat → String) (ts : Rat)
    (q : String) (size : Nat),
    (charsBytes q.data + 3 ≤ size →
      dataSample_ConvertToJson numFmt ⟨ts, SVal.sStr q⟩ IoDataType.strType size =
        ConvOut.okC ('"' :: (q.data ++ ['"']))) ∧
    (size < charsBytes q.data + 3 →
      dataSample_ConvertToJson numFmt ⟨ts, SVal.sStr q⟩ IoDataType.strType size =
        ConvOut.overflowC) := by
  intro numFmt ts q size
  have hq : dataSample_GetString ⟨ts, SVal.sStr q⟩ = q := rfl
  rw [convertToJson_str, hq]
  constructor
  · intro h
    have h1 : ¬(size < 3) := by omega
    have h2 : charsBytes q.data + 1 ≤ size - 1 := by omega
    rw [if_neg h1, if_neg]
    rintro (hc | hc)
    · rw [leUtf8Copy_ok _ _ h2] at hc
      simp at hc
    · have hlen : (true, q.data, charsBytes q.data).2.2 = charsBytes q.data := rfl
      rw [leUtf8Copy_ok _ _ h2, hlen] at hc
      omega
  · intro h
    by_cases h1 : size < 3
    · rw [if_pos h1]
    · rw [if_neg h1]
      by_cases h2 : charsBytes q.data + 1 ≤ size - 1
      · rw [if_pos]
        refine Or.inr ?_
        have hlen : (true, q.data, charsBytes q.data).2.2 = charsBytes q.data := rfl
        rw [leUtf8Copy_ok _ _ h2, hlen]
        omega
      · rw [if_pos]
        refine Or.inl ?_
        rw [leUtf8Copy_fst_fail _ _ h2]
        rfl

/-- Witness for C5 at the spec's concrete inputs: `"hi"` into a 2-byte
buffer overflows; into a 5-byte buffer it is written as `"hi"` in quotes. -/
theorem c5_witness :
    dataSample_ConvertToJson fmt0 ⟨0, SVal.sStr "hi"⟩ IoDataType.strType 2 =
      ConvOut.overflowC ∧
    dataSample_ConvertToJson fmt0 ⟨0, SVal.sStr "hi"⟩ IoDataType.strType 5 =
      ConvOut.okC ('"' :: ("hi".data ++ ['"'])) :=
  ⟨(c5_convert_string_quotes fmt0 0 "hi" 2).2 (by decide),
   (c5_convert_string_quotes fmt0 0 "hi" 5).1 (by decide)⟩

/-! ### Claim C6: JSON extraction typing -/

theorem createTrigger_some (clockNow ts : Rat) (a : List Bool)
    (s : DataSample) (a1 : List Bool)
    (h : dataSample_CreateTrigger clockNow ts a = (some s, a1)) :
    s.timestamp = sampleStamp clockNow ts := by
  unfold dataSample_CreateTrigger at h
  split at h
  · injection h with h1 h2
    injection h1 with h1
    rw [← h1]
  · exact absurd h (by simp)

theorem createBoolean_some (clockNow ts : Rat) (v : Bool) (a : List Bool)
    (s : DataSample) (a1 : List Bool)
    (h : dataSample_CreateBoolean clockNow ts v a = (some s, a1)) :
    s.timestamp = sampleStamp clockNow ts := by
  unfold dataSample_CreateBoolean at h
  split at h
  · injection h with h1 h2
    injection h1 with h1
    rw [← h1]
  · exact absurd h (by simp)

theorem createNumeric_some (clockNow ts : Rat) (v : Rat) (a : List Bool)
    (s : DataSample) (a1 : List Bool)
    (h : dataSample_CreateNumeric clockNow ts v a = (some s, a1)) :
    s.timestamp = sampleStamp clockNow ts := by
  unfold dataSample_CreateNumeric at h
  split at h
  · injection h with h1 h2
    injection h1 with h1
    rw [← h1]
  · exact absurd h (by simp)

theorem createString_some (clockNow ts : Rat) (v : String) (a : List Bool)
    (s : DataSample) (a1 : List Bool)
    (h : dataSample_CreateString clockNow ts v a = (some s, a1)) :
    s.timestamp = sampleStamp clockNow ts := by
  unfold dataSample_CreateString at h
  split at h
  · split at h
    · injection h with h1 h2
      injection h1 with h1
      rw [← h1]
    · exact absurd h (by simp)
  · exact absurd h (by simp)

/-- C6 (confirmed): `dataSample_ExtractJson` either fails and returns
nothing (when the external extraction fails, or on pool exhaustion), or
returns a freshly built sample whose timestamp equals the source sample's
timestamp and whose data type is determined by the extracted JSON node
(`null → trigger`, `true/false → boolean`, number → numeric,
string → string, object/array → json).  The hypothesis is the sample-store
invariant that the `NOW` sentinel never persists past construction. -/
theorem c6_extract_json_typing :
    ∀ (jx : String → String → Option (String × JsonType))
      (toBool : String → Bool) (toNum : String → Rat) (clockNow : Rat)
      (src : DataSample) (spec : String) (a : List Bool),
    src.timestamp ≠ ioNow →
    ((jx (dataSample_GetJson src) spec = none →
        (dataSample_ExtractJson jx toBool toNum clockNow src spec a).1 = none) ∧
     (∀ (out : DataSample) (dt : IoDataType) (a2 : List Bool),
        dataSample_ExtractJson jx toBool toNum clockNow src spec a =
          (some (out, dt), a2) →
        out.timestamp = src.timestamp ∧
        ∃ buf jt, jx (dataSample_GetJson src) spec = some (buf, jt) ∧
          dt = jsonTypeToDataType jt)) := by
  intro jx toBool toNum clockNow src spec a hts
  have hstamp : sampleStamp clockNow src.timestamp = src.timestamp := by
    unfold sampleStamp
    rw [if_neg hts]
  constructor
  · intro hn
    unfold dataSample_ExtractJson
    rw [hn]
  · intro out dt a2 h
    unfold dataSample_ExtractJson at h
    split at h
    · exact absurd h (by simp)
    · rename_i p buf jt heq
      split at h <;>
      · split at h
        · rename_i s1 a3 heq2
          injection h with h1 h2
          injection h1 with h1
          injection h1 with hout hdt
          subst hout
          subst hdt
          refine ⟨?_, buf, _, heq, rfl⟩
          first
          | exact (createTrigger_some _ _ _ _ _ heq2).trans hstamp
          | exact (createBoolean_some _ _ _ _ _ _ heq2).trans hstamp
          | exact (createNumeric_some _ _ _ _ _ _ heq2).trans hstamp
          | exact (createString_some _ _ _ _ _ _ heq2).trans hstamp
        · exact absurd h (by simp)

/-- Witness for C6 at a concrete input: extracting a number node from a
JSON sample stamped 5 yields a numeric sample stamped 5. -/
theorem c6_witness :
    (DataSample.mk 5 (SVal.sNum 7)).timestamp =
      (DataSample.mk 5 (SVal.sStr "[1]")).timestamp ∧
    ∃ buf jt, jx0 (dataSample_GetJson ⟨5, SVal.sStr "[1]"⟩) ("x") =
        some (buf, jt) ∧ IoDataType.numeric = jsonTypeToDataType jt :=
  (c6_extract_json_typing jx0 tb0 tn0 0 ⟨5, SVal.sStr "[1]"⟩ "x" []
    (by decide)).2 ⟨5, SVal.sNum 7⟩ IoDataType.numeric [] rfl

/-! ### Claim C7: get_observation refuses inputs and outputs -/

theorem entryAt_append_some (t : Entry) (x y : List Nat) (base e : Entry)
    (hx : entryAt t x = some base) (hy : entryAt base y = some e) :
    entryAt t (x ++ y) = some e := by
  rw [entryAt_append, hx]
  exact hy

theorem getResourcePromote_resource (t : Entry) (baseIdx : List Nat)
    (path : String) (full : List Nat) (created : Bool) (a : List Bool)
    (e : Entry) (hfull : entryAt t full = some e)
    (hns : e.etype ≠ EntryType.nspace) :
    getResourcePromote t baseIdx path full created a = (OpRes.ok full, t, a) := by
  unfold getResourcePromote
  split
  · rename_i heq
    rw [hfull] at heq
    exact absurd heq (by simp)
  · rename_i e2 heq
    rw [hfull] at heq
    injection heq with heq
    subst heq
    rw [if_neg hns]

theorem getResource_found (t : Entry) (baseIdx : List Nat) (path : String)
    (a : List Bool) (segs : List String) (base : Entry) (c : List Nat)
    (e : Entry) (hp : parseSegs path.data = some segs)
    (hb : entryAt t baseIdx = some base)
    (hc : FindEntry base segs = some c)
    (he : entryAt base c = some e)
    (hns : e.etype ≠ EntryType.nspace) :
    resTree_GetResource t baseIdx path a = (OpRes.ok (baseIdx ++ c), t, a) := by
  unfold resTree_GetResource
  split
  · rename_i heq
    rw [hp] at heq
    exact absurd heq (by simp)
  · rename_i segs2 heq
    rw [hp] at heq
    injection heq with heq
    subst heq
    split
    · rename_i heq2
      rw [hb] at heq2
      exact absurd heq2 (by simp)
    · rename_i base2 heq2
      rw [hb] at heq2
      injection heq2 with heq2
      subst heq2
      split
      · rename_i c2 heq3
        rw [hc] at heq3
        injection heq3 with heq3
        subst heq3
        exact getResourcePromote_resource t baseIdx path (baseIdx ++ c) false a e
          (entryAt_append_some t baseIdx c base e hb he) hns
      · rename_i heq3
        rw [hc] at heq3
        exact absurd heq3 (by simp)

/-- C7 (confirmed): `resTree_GetObservation` applied to a path at which a
live Input or Output entry resides returns `LE_BAD_PARAMETER` and leaves
the tree (in particular that entry's type) unchanged; it never converts an
existing input or output into an observation. -/
theorem c7_getObservation_io_refused (t : Entry) (baseIdx : List Nat)
    (path : String) (a : List Bool) (segs : List String) (base : Entry)
    (c : List Nat) (e : Entry)
    (hp : parseSegs path.data = some segs)
    (hb : entryAt t baseIdx = some base)
    (hc : FindEntry base segs = some c)
    (he : entryAt base c = some e)
    (hio : e.etype = EntryType.input ∨ e.etype = EntryType.output) :
    resTree_GetObservation t baseIdx path a = (OpRes.badParameter, t, a) := by
  have hns : e.etype ≠ EntryType.nspace := by
    rcases hio with h | h <;> rw [h] <;> simp
  have hgr := getResource_found t baseIdx path a segs base c e hp hb hc he hns
  have hfull : entryAt t (baseIdx ++ c) = some e :=
    entryAt_append_some t baseIdx c base e hb he
  unfold resTree_GetObservation
  rw [hgr]
  show getObservationConvert t (baseIdx ++ c) a = (OpRes.badParameter, t, a)
  unfold getObservationConvert
  split
  · rename_i heq
    rw [hfull] at heq
    exact absurd heq (by simp)
  · rename_i e2 heq
    rw [hfull] at heq
    injection heq with heq
    subst heq
    have hnp : e.etype ≠ EntryType.placeholder := by
      rcases hio with h | h <;> rw [h] <;> simp
    have hno : e.etype ≠ EntryType.observation := by
      rcases hio with h | h <;> rw [h] <;> simp
    rw [if_neg hnp, if_neg hno]

/-- Witness for C7 at a concrete input: the tree with an Input at `a`. -/
theorem c7_witness :
    resTree_GetObservation inputChildTree [] ("a") [] =
      (OpRes.badParameter, inputChildTree, []) :=
  c7_getObservation_io_refused inputChildTree [] "a" [] ["a"] inputChildTree
    [0] (Entry.mk "a" EntryType.input newFlags (some Res.inputRes) 1 [])
    (by decide) rfl (by decide) rfl (Or.inl rfl)

/-! ### Claim C1: placeholder routing rule -/

/-- C1 (amended): whenever `resTree_GetResource` finds or creates a
namespace-typed entry, the placeholder attached to it by
`CreatePlaceholderForNamespace` is an observation placeholder exactly when
the base is the observations namespace (pointer equality with the entry
`resTree_GetObsNamespace` returns) or the path literally begins with the
five bytes `/obs/`, and an I/O placeholder otherwise.  In particular on an
empty tree `get_resource(root, "/obs/x")` — with the leading slash —
attaches an observation placeholder (second and third conjuncts).
(`get_resource(root, "obs/x")` does not: see the counterexample.) -/
theorem c1_placeholder_routing :
    (∀ (t : Entry) (baseIdx : List Nat) (path : String) (entryIdx : List Nat)
       (a : List Bool) (obsC : List Nat) (t1 : Entry) (a1 : List Bool)
       (t2 : Entry) (a2 : List Bool),
      resTree_GetObsNamespace t a = (some obsC, t1, a1) →
      CreatePlaceholderForNamespace t baseIdx path entryIdx a =
        (PlaceOut.okP, t2, a2) →
      ∃ en, entryAt t2 entryIdx = some en ∧
        en.etype = EntryType.placeholder ∧
        (en.res = some Res.obsPlaceholder ↔
          (baseIdx = obsC ∨ startsWithObs path.data = true)) ∧
        (en.res = some Res.ioPlaceholder ↔
          ¬(baseIdx = obsC ∨ startsWithObs path.data = true))) ∧
    (resTree_GetResource emptyRoot [] ("/obs/x") [true, true, true]).1 =
      OpRes.ok [0, 0] ∧
    ((entryAt (resTree_GetResource emptyRoot [] ("/obs/x")
        [true, true, true]).2.1 [0, 0]).map Entry.res) =
      some (some Res.obsPlaceholder) := by
  refine ⟨?_, rfl, rfl⟩
  intro t baseIdx path entryIdx a obsC t1 a1 t2 a2 hobs h
  unfold CreatePlaceholderForNamespace at h
  split at h
  · exact absurd h (by simp)
  · rename_i en0 heq0
    split at h
    · split at h
      · exact absurd h (by simp)
      · rename_i obsC2 t1x a1x heq1
        rw [hobs] at heq1
        injection heq1 with hone hrest
        injection hrest with htree halloc
        injection hone with hone
        subst hone
        subst htree
        subst halloc
        split at h
        · split at h
          · exact absurd h (by simp)
          · rename_i en1 heq2
            injection h with h1 h23
            injection h23 with h2 h3
            refine ⟨Entry.mk en1.name EntryType.placeholder en1.flags
              (some (if (decide (baseIdx = obsC) || startsWithObs path.data)
                     then Res.obsPlaceholder else Res.ioPlaceholder))
              en1.rc en1.children, ?_, rfl, ?_, ?_⟩
            · rw [← h2]
              exact entryAt_updateAt entryIdx t1 en1 _ heq2
            · constructor
              · intro hres
                simp only [Entry_res_mk, Option.some.injEq] at hres
                by_cases hb2 :
                    (decide (baseIdx = obsC) || startsWithObs path.data) = true
                · rw [Bool.or_eq_true, decide_eq_true_iff] at hb2
                  exact hb2
                · rw [if_neg hb2] at hres
                  exact absurd hres (by simp)
              · intro hcond
                have hb2 :
                    (decide (baseIdx = obsC) || startsWithObs path.data) = true := by
                  rw [Bool.or_eq_true, decide_eq_true_iff]
                  exact hcond
                simp only [Entry_res_mk, hb2, if_true]
            · constructor
              · intro hres
                simp only [Entry_res_mk, Option.some.injEq] at hres
                intro hcond
                have hb2 :
                    (decide (baseIdx = obsC) || startsWithObs path.data) = true := by
                  rw [Bool.or_eq_true, decide_eq_true_iff]
                  exact hcond
                rw [if_pos hb2] at hres
                exact absurd hres (by simp)
              · intro hcond
                have hb2 :
                    ¬(decide (baseIdx = obsC) || startsWithObs path.data) = true := by
                  rw [Bool.or_eq_true, decide_eq_true_iff]
                  exact hcond
                simp only [Entry_res_mk, if_neg hb2]
        · exact absurd h (by simp)
    · exact absurd h (by simp)

/-- Witness for C1's quantified routing rule at a concrete input: attaching
a placeholder to the namespace `n` of `nsChildTree` with base the root and
path `p` (neither the obs namespace nor an `/obs/`-prefixed path) yields an
I/O placeholder, matching the rule's right-hand side being false. -/
theorem c1_witness :
    ∃ en, entryAt (CreatePlaceholderForNamespace nsChildTree [] ("p") [0]
        [true]).2.1 [0] = some en ∧
      en.etype = EntryType.placeholder ∧
      (en.res = some Res.obsPlaceholder ↔
        (([] : List Nat) = [1] ∨ startsWithObs ("p".data) = true)) ∧
      (en.res = some Res.ioPlaceholder ↔
        ¬(([] : List Nat) = [1] ∨ startsWithObs ("p".data) = true)) :=
  c1_placeholder_routing.1 nsChildTree [] "p" [0] [true] [1]
    ((resTree_GetObsNamespace nsChildTree [true]).2.1)
    ((resTree_GetObsNamespace nsChildTree [true]).2.2)
    ((CreatePlaceholderForNamespace nsChildTree [] ("p") [0] [true]).2.1)
    ((CreatePlaceholderForNamespace nsChildTree [] ("p") [0] [true]).2.2)
    rfl rfl

/-- Counterexample to C1 as stated: on the empty tree,
`get_resource(root, "obs/x")` (no leading slash, base not the obs
namespace) succeeds but attaches an I/O placeholder, not the observation
placeholder the claim's "in particular" asserts. -/
theorem c1_counterexample :
    (resTree_GetResource emptyRoot [] ("obs/x") [true, true, true]).1 =
      OpRes.ok [0, 0] ∧
    ((entryAt (resTree_GetResource emptyRoot [] ("obs/x")
        [true, true, true]).2.1 [0, 0]).map Entry.res) =
      some (some Res.ioPlaceholder) ∧
    Res.ioPlaceholder ≠ Res.obsPlaceholder :=
  ⟨rfl, rfl, by decide⟩
